import Mathlib

/-!
Verification of the block-store allocator (`src/block_store.c`) against its
specification.  The C code manages a fixed array of `N` equally sized blocks,
a packed bitmap tracking allocation state, and a raw-bytes persistence format.

The embedding below translates the C functions of `block_store.c` into Lean.
The compile-time constants of `block_store.h` and the bitmap ADT of `bitmap.c`
are not part of the sources; they are modelled from the specification
(section 3 and section 4.1) and are marked as such.
-/

namespace BStore

/-- Modelled from the spec: the compile-time configuration constants declared
in `block_store.h`, which is missing from the sources. `N` is
`BLOCK_STORE_NUM_BLOCKS` (total block count), `B` is `BLOCK_SIZE_BYTES`
(block size in bytes), `Rstart` is `BITMAP_START_BLOCK` and `Rlen` is
`BITMAP_NUM_BLOCKS` (the reserved metadata range `[Rstart, Rstart + Rlen)`).
The raw buffer holds `BLOCK_STORE_NUM_BYTES = N * B` bytes. -/
structure Config where
  N : Nat
  B : Nat
  Rstart : Nat
  Rlen : Nat

/-- `BLOCK_STORE_NUM_BYTES`: the raw buffer size, `N * B` bytes
(spec section 3: a contiguous raw buffer of `N * B` bytes). -/
def Config.numBytes (cfg : Config) : Nat := cfg.N * cfg.B

/-- `size_t` is 64 bits wide, so its arithmetic is modulo `2 ^ 64`. -/
def sizeTMod : Nat := 18446744073709551616

/-- `SIZE_MAX`, the error / no-space sentinel of the C code. -/
def SIZE_MAX : Nat := sizeTMod - 1

/-- Modelled from the spec (section 4.1; `bitmap.c` is missing from the
sources): a bitmap is a packed vector of bits, embedded as a `List Bool`
with one entry per bit. -/
abbrev bitmap_t : Type := List Bool

/-- Modelled from the spec: `bitmap_create(bit_count)` returns a bitmap with
all bits clear. -/
def bitmap_create (bit_count : Nat) : bitmap_t := List.replicate bit_count false

/-- Modelled from the spec: `bitmap_test(bm, i)` is true iff bit `i` is set.
The spec makes out-of-range access undefined; the model reads `false` there,
and every caller in `block_store.c` validates the index first. -/
def bitmap_test (bm : bitmap_t) (i : Nat) : Bool := List.getD bm i false

/-- Modelled from the spec: `bitmap_set(bm, i)` marks bit `i` as 1. -/
def bitmap_set (bm : bitmap_t) (i : Nat) : bitmap_t := List.set bm i true

/-- Modelled from the spec: `bitmap_reset(bm, i)` marks bit `i` as 0. -/
def bitmap_reset (bm : bitmap_t) (i : Nat) : bitmap_t := List.set bm i false

/-- Modelled from the spec: `bitmap_total_set(bm)` counts the set bits. -/
def bitmap_total_set (bm : bitmap_t) : Nat := List.count true bm

/-- The `block_store` struct of `block_store.c`: a bitmap pointer (possibly
NULL, hence `Option`) and the raw data buffer of `N * B` bytes, embedded as a
list of byte values. A NULL `block_store_t *` handle is `none` at use sites. -/
structure block_store where
  bitmap : Option bitmap_t
  data : List Nat

/-- `block_store_create`: calloc zeroes the whole struct, then a bitmap of
`BLOCK_STORE_NUM_BLOCKS` bits is created with all bits clear. The embedding
takes the allocation-success path; allocation failure returns NULL in C. -/
def block_store_create (cfg : Config) : block_store :=
  { bitmap := some (bitmap_create cfg.N)
    data := List.replicate cfg.numBytes 0 }

/-- `block_store_get_total_blocks`: returns `BLOCK_STORE_NUM_BLOCKS`. -/
def block_store_get_total_blocks (cfg : Config) : Nat := cfg.N

/-- The reserved-range test of `block_store_allocate`:
`i >= BITMAP_START_BLOCK && i < BITMAP_START_BLOCK + BITMAP_NUM_BLOCKS`. -/
def inReservedRange (cfg : Config) (i : Nat) : Bool :=
  decide (cfg.Rstart ≤ i) && decide (i < cfg.Rstart + cfg.Rlen)

/-- `block_store_allocate`: NULL checks return `SIZE_MAX`; otherwise scan ids
`0..N` ascending, skip the reserved range, and on the first clear bit set it
and return the id; `SIZE_MAX` when no free block exists. The result pairs the
mutated store with the returned id. -/
def block_store_allocate (cfg : Config) (bs : Option block_store) :
    Option block_store × Nat :=
  match bs with
  | none => (none, SIZE_MAX)
  | some b =>
    match b.bitmap with
    | none => (some b, SIZE_MAX)
    | some bm =>
      match (List.range cfg.N).find?
          (fun i => !inReservedRange cfg i && !bitmap_test bm i) with
      | some i => (some { b with bitmap := some (bitmap_set bm i) }, i)
      | none => (some b, SIZE_MAX)

/-- `block_store_request`: fails on NULL store, NULL bitmap or
`block_id >= block_store_get_total_blocks()`; succeeds (setting the bit) iff
the bit is currently clear. The result pairs the store with the `bool`. -/
def block_store_request (cfg : Config) (bs : Option block_store)
    (block_id : Nat) : Option block_store × Bool :=
  match bs with
  | none => (none, false)
  | some b =>
    match b.bitmap with
    | none => (some b, false)
    | some bm =>
      if block_id ≥ block_store_get_total_blocks cfg then (some b, false)
      else if !bitmap_test bm block_id then
        (some { b with bitmap := some (bitmap_set bm block_id) }, true)
      else (some b, false)

/-- `block_store_release`: when the store and bitmap are non-NULL, the id is
in range and the bit is set, clear it; otherwise do nothing. -/
def block_store_release (cfg : Config) (bs : Option block_store)
    (block_id : Nat) : Option block_store :=
  match bs with
  | none => none
  | some b =>
    match b.bitmap with
    | none => some b
    | some bm =>
      if block_id < block_store_get_total_blocks cfg then
        if bitmap_test bm block_id then
          some { b with bitmap := some (bitmap_reset bm block_id) }
        else some b
      else some b

/-- `block_store_get_used_blocks`: `SIZE_MAX` on NULL store or bitmap, else
`bitmap_total_set(bs->bitmap) + BITMAP_NUM_BLOCKS` as `size_t`. -/
def block_store_get_used_blocks (cfg : Config) (bs : Option block_store) :
    Nat :=
  match bs with
  | none => SIZE_MAX
  | some b =>
    match b.bitmap with
    | none => SIZE_MAX
    | some bm => (bitmap_total_set bm + cfg.Rlen) % sizeTMod

/-- `block_store_get_free_blocks`: `SIZE_MAX` on NULL store or bitmap, else
`total_blocks - used_blocks` in wrapping `size_t` arithmetic. -/
def block_store_get_free_blocks (cfg : Config) (bs : Option block_store) :
    Nat :=
  match bs with
  | none => SIZE_MAX
  | some b =>
    match b.bitmap with
    | none => SIZE_MAX
    | some _ =>
      let total_blocks := block_store_get_total_blocks cfg % sizeTMod
      let used_blocks := block_store_get_used_blocks cfg (some b)
      (sizeTMod + total_blocks - used_blocks) % sizeTMod

/-- `block_store_read`: 0 on NULL store, NULL buffer or out-of-range id (the
`bs->data == NULL` test is constant-false in C, `data` being an array
member); otherwise memcpy `BLOCK_SIZE_BYTES` bytes of block `block_id` into
the buffer and return `BLOCK_SIZE_BYTES`. The result pairs the caller buffer
contents with the returned byte count. -/
def block_store_read (cfg : Config) (bs : Option block_store)
    (block_id : Nat) (buffer : Option (List Nat)) : Option (List Nat) × Nat :=
  match bs, buffer with
  | some b, some _ =>
    if block_id ≥ block_store_get_total_blocks cfg then (buffer, 0)
    else
      (some (List.take cfg.B (List.drop (block_id * cfg.B) b.data)), cfg.B)
  | _, _ => (buffer, 0)

/-- Overwrite `src.length` bytes of `data` starting at offset `off`
(the effect of `memcpy(data + off, src, src.length)`). -/
def writeBytes (data : List Nat) (off : Nat) (src : List Nat) : List Nat :=
  List.take off data ++ src ++ List.drop (off + src.length) data

/-- `block_store_write`: 0 on NULL store, NULL buffer or out-of-range id;
otherwise memcpy exactly `BLOCK_SIZE_BYTES` bytes from the buffer into block
`block_id` and return `BLOCK_SIZE_BYTES`. -/
def block_store_write (cfg : Config) (bs : Option block_store)
    (block_id : Nat) (buffer : Option (List Nat)) : Option block_store × Nat :=
  match bs, buffer with
  | some b, some buf =>
    if block_id ≥ block_store_get_total_blocks cfg then (some b, 0)
    else
      (some { b with
          data := writeBytes b.data (block_id * cfg.B) (List.take cfg.B buf) },
        cfg.B)
  | _, _ => (bs, 0)

/-- Block `block_id` of a raw buffer holds a non-zero byte: the inner loop of
`block_store_deserialize` that decides `is_allocated`. -/
def blockNonzero (cfg : Config) (data : List Nat) (block_id : Nat) : Bool :=
  (List.take cfg.B (List.drop (block_id * cfg.B) data)).any (fun x => !decide (x = 0))

/-- `block_store_deserialize`: the environment is embedded as the byte
contents the file offers (`none` for a NULL filename or failed `open`).
A `read` that returns fewer than `BLOCK_STORE_NUM_BYTES` bytes destroys the
partial store and returns NULL; otherwise the first `N * B` file bytes become
the buffer and bit `i` is set iff block `i` holds a non-zero byte. -/
def block_store_deserialize (cfg : Config) (file : Option (List Nat)) :
    Option block_store :=
  match file with
  | none => none
  | some bytes =>
    if bytes.length < cfg.numBytes then none
    else
      let data := List.take cfg.numBytes bytes
      some { bitmap := some ((List.range cfg.N).map (blockNonzero cfg data))
             data := data }

/-- Outcome of the file I/O inside `block_store_serialize`: the `open` call
fails, or `write` transfers only `n < N * B` bytes, or everything succeeds.
A NULL filename behaves like a failed `open` (return 0, no file written). -/
inductive IOOutcome where
  | ok : IOOutcome
  | openFail : IOOutcome
  | shortWrite : Nat → IOOutcome

/-- `block_store_serialize`: 0 on NULL store, NULL filename, failed `open`
or a partial `write`; on success the whole raw buffer (`N * B` bytes) is the
file contents and `BLOCK_STORE_NUM_BYTES` is returned. The result pairs the
resulting file contents (`none` when no file was produced) with the byte
count returned to the caller. -/
def block_store_serialize (cfg : Config) (bs : Option block_store)
    (io : IOOutcome) : Option (List Nat) × Nat :=
  match bs with
  | none => (none, 0)
  | some b =>
    match io with
    | IOOutcome.openFail => (none, 0)
    | IOOutcome.shortWrite n => (some (List.take n b.data), 0)
    | IOOutcome.ok => (some b.data, cfg.numBytes % sizeTMod)

/-- One call of the mutating allocation API, for stating properties over
arbitrary call sequences. -/
inductive Op where
  | alloc : Op
  | req : Nat → Op
  | rel : Nat → Op

/-- Apply one API call to a store handle, keeping the resulting handle. -/
def applyOp (cfg : Config) (bs : Option block_store) : Op → Option block_store
  | Op.alloc => (block_store_allocate cfg bs).1
  | Op.req id => (block_store_request cfg bs id).1
  | Op.rel id => block_store_release cfg bs id

/-- Run a sequence of allocate / request / release calls. -/
def runOps (cfg : Config) (bs : Option block_store) (ops : List Op) :
    Option block_store :=
  ops.foldl (applyOp cfg) bs

/-- The block ids `block_store_allocate` may serve: all of `[0, N)` outside
the reserved metadata range, in ascending order. -/
def freeIds (cfg : Config) : List Nat :=
  (List.range cfg.N).filter (fun i => !inReservedRange cfg i)

/-- Call `block_store_allocate` `k` times, collecting the returned ids in
call order. -/
def allocRun (cfg : Config) (bs : Option block_store) :
    Nat → Option block_store × List Nat
  | 0 => (bs, [])
  | k + 1 =>
    let r := block_store_allocate cfg bs
    let rest := allocRun cfg r.1 k
    (rest.1, r.2 :: rest.2)

/-- A store handle is valid: non-NULL with a non-NULL bitmap. -/
def isValid (bs : Option block_store) : Prop :=
  ∃ b bm, bs = some b ∧ b.bitmap = some bm

lemma isValid_applyOp (cfg : Config) (bs : Option block_store) (op : Op)
    (h : isValid bs) : isValid (applyOp cfg bs op) := by
  obtain ⟨b, bm, rfl, hbm⟩ := h
  cases op with
  | alloc =>
    simp only [applyOp, block_store_allocate, hbm]
    cases (List.range cfg.N).find?
        (fun i => !inReservedRange cfg i && !bitmap_test bm i) with
    | none => exact ⟨b, bm, rfl, hbm⟩
    | some i => exact ⟨_, _, rfl, rfl⟩
  | req id =>
    simp only [applyOp, block_store_request, hbm]
    by_cases hid : id ≥ block_store_get_total_blocks cfg
    · simp only [if_pos hid]; exact ⟨b, bm, rfl, hbm⟩
    · simp only [if_neg hid]
      by_cases ht : bitmap_test bm id
      · simp only [ht, Bool.not_true, Bool.false_eq_true, if_false]
        exact ⟨b, bm, rfl, hbm⟩
      · simp only [Bool.not_eq_true] at ht
        simp only [ht, Bool.not_false, if_true]
        exact ⟨_, _, rfl, rfl⟩
  | rel id =>
    simp only [applyOp, block_store_release, hbm]
    by_cases hid : id < block_store_get_total_blocks cfg
    · simp only [if_pos hid]
      by_cases ht : bitmap_test bm id
      · simp only [ht, if_true]; exact ⟨_, _, rfl, rfl⟩
      · simp only [ht, if_false]; exact ⟨b, bm, rfl, hbm⟩
    · simp only [if_neg hid]; exact ⟨b, bm, rfl, hbm⟩

lemma isValid_runOps (cfg : Config) (ops : List Op) (bs : Option block_store)
    (h : isValid bs) : isValid (runOps cfg bs ops) := by
  induction ops generalizing bs with
  | nil => exact h
  | cons op rest ih => exact ih _ (isValid_applyOp cfg bs op h)

lemma used_add_free_mod (cfg : Config) (bs : Option block_store)
    (h : isValid bs) :
    (block_store_get_used_blocks cfg bs + block_store_get_free_blocks cfg bs)
        % sizeTMod =
      block_store_get_total_blocks cfg % sizeTMod := by
  obtain ⟨b, bm, rfl, hbm⟩ := h
  simp only [block_store_get_used_blocks, block_store_get_free_blocks, hbm,
    block_store_get_total_blocks, sizeTMod]
  omega

/-- C2 (counterexample): with `N = 16`, reserved range `[0, 2)`, allocating
all 14 non-reserved blocks and then requesting the two reserved ids yields
`GetUsedBlocks = 18 > 16`, so `GetFreeBlocks` wraps and the plain-number sum
`GetUsedBlocks + GetFreeBlocks` is not `GetTotalBlocks`. -/
theorem used_plus_free_breaks_total :
    let cfg : Config := ⟨16, 1, 0, 2⟩
    let s := runOps cfg (some (block_store_create cfg))
      (List.replicate 14 Op.alloc ++ [Op.req 0, Op.req 1])
    block_store_get_used_blocks cfg s + block_store_get_free_blocks cfg s ≠
      block_store_get_total_blocks cfg := by
  decide

/-- C2 (amended): after every finite sequence of Allocate / Request / Release
calls on a freshly created store, `GetUsedBlocks + GetFreeBlocks` equals
`GetTotalBlocks` in the wrapping `size_t` arithmetic the C expression uses,
that is, modulo `2 ^ 64`. -/
theorem used_plus_free_eq_total_mod_sizeT (cfg : Config) (ops : List Op) :
    (block_store_get_used_blocks cfg
        (runOps cfg (some (block_store_create cfg)) ops) +
      block_store_get_free_blocks cfg
        (runOps cfg (some (block_store_create cfg)) ops)) % sizeTMod =
      block_store_get_total_blocks cfg % sizeTMod :=
  used_add_free_mod cfg _
    (isValid_runOps cfg ops _ ⟨_, _, rfl, rfl⟩)

/-- C10: a reachable state in which the reserved blocks are counted twice:
with `N = 16`, reserved `[0, 2)`, after allocating every non-reserved block
and successfully requesting both reserved ids, `GetUsedBlocks` returns 18,
strictly above `GetTotalBlocks = 16`, and `GetFreeBlocks` wraps modulo
`2 ^ 64` to `2 ^ 64 - 2`. -/
theorem reserved_double_count_wraparound :
    let cfg : Config := ⟨16, 1, 0, 2⟩
    let s := runOps cfg (some (block_store_create cfg))
      (List.replicate 14 Op.alloc ++ [Op.req 0, Op.req 1])
    (block_store_request cfg (runOps cfg (some (block_store_create cfg))
        (List.replicate 14 Op.alloc)) 0).2 = true ∧
    block_store_get_used_blocks cfg s = 18 ∧
    block_store_get_total_blocks cfg = 16 ∧
    block_store_get_total_blocks cfg < block_store_get_used_blocks cfg s ∧
    block_store_get_free_blocks cfg s = sizeTMod - 2 := by
  decide

/-- C3: GetUsedBlocks on a valid store is the bitmap popcount plus the size
of the reserved metadata range, and `SIZE_MAX` on a NULL store handle or a
NULL bitmap. -/
theorem get_used_blocks_spec (cfg : Config) (b : block_store) (bm : bitmap_t)
    (hbm : b.bitmap = some bm)
    (hof : bitmap_total_set bm + cfg.Rlen < sizeTMod) :
    block_store_get_used_blocks cfg (some b) =
      bitmap_total_set bm + cfg.Rlen ∧
    block_store_get_used_blocks cfg none = SIZE_MAX ∧
    (∀ b2 : block_store, b2.bitmap = none →
      block_store_get_used_blocks cfg (some b2) = SIZE_MAX) := by
  refine ⟨?_, rfl, ?_⟩
  · simp only [block_store_get_used_blocks, hbm, Nat.mod_eq_of_lt hof]
  · intro b2 h2
    simp only [block_store_get_used_blocks, h2]

theorem get_used_blocks_spec_witness :
    block_store_get_used_blocks ⟨16, 1, 0, 2⟩
        (some (block_store_create ⟨16, 1, 0, 2⟩)) =
      bitmap_total_set (bitmap_create 16) + 2 :=
  (get_used_blocks_spec ⟨16, 1, 0, 2⟩ (block_store_create ⟨16, 1, 0, 2⟩)
    (bitmap_create 16) rfl (by decide)).1

lemma request_eq (cfg : Config) (b : block_store) (bm : bitmap_t) (id : Nat)
    (hbm : b.bitmap = some bm) :
    block_store_request cfg (some b) id =
      if id < cfg.N ∧ bitmap_test bm id = false then
        (some { b with bitmap := some (bitmap_set bm id) }, true)
      else (some b, false) := by
  simp only [block_store_request, hbm, block_store_get_total_blocks, ge_iff_le]
  by_cases hid : cfg.N ≤ id
  · rw [if_pos hid, if_neg (by omega)]
  · rw [if_neg hid]
    by_cases ht : bitmap_test bm id = true
    · rw [if_neg (by simp [ht]), if_neg (by simp [ht])]
    · have ht2 : bitmap_test bm id = false := by simpa using ht
      rw [if_pos (by simp [ht2]), if_pos ⟨by omega, ht2⟩]

lemma release_eq (cfg : Config) (b : block_store) (bm : bitmap_t) (id : Nat)
    (hbm : b.bitmap = some bm) :
    block_store_release cfg (some b) id =
      if id < cfg.N ∧ bitmap_test bm id = true then
        some { b with bitmap := some (bitmap_reset bm id) }
      else some b := by
  simp only [block_store_release, hbm, block_store_get_total_blocks]
  by_cases hid : id < cfg.N
  · rw [if_pos hid]
    by_cases ht : bitmap_test bm id
    · rw [if_pos ht, if_pos ⟨hid, ht⟩]
    · rw [if_neg ht, if_neg (by simp [ht])]
  · rw [if_neg hid, if_neg (by simp [hid])]

/-- C4: Request succeeds exactly when the store is valid, the id is in range
and the block is free, setting that bit; otherwise it fails without mutating
anything; a reserved-range id is not excluded. -/
theorem request_spec (cfg : Config) (b : block_store) (bm : bitmap_t)
    (id : Nat) (hbm : b.bitmap = some bm) :
    ((block_store_request cfg (some b) id).2 = true ↔
      id < cfg.N ∧ bitmap_test bm id = false) ∧
    (id < cfg.N → bitmap_test bm id = false →
      block_store_request cfg (some b) id =
        (some { b with bitmap := some (bitmap_set bm id) }, true)) ∧
    ((block_store_request cfg (some b) id).2 = false →
      (block_store_request cfg (some b) id).1 = some b) ∧
    (inReservedRange cfg id = true → id < cfg.N → bitmap_test bm id = false →
      (block_store_request cfg (some b) id).2 = true) ∧
    block_store_request cfg none id = (none, false) ∧
    (∀ b2 : block_store, b2.bitmap = none →
      block_store_request cfg (some b2) id = (some b2, false)) := by
  rw [request_eq cfg b bm id hbm]
  by_cases h : id < cfg.N ∧ bitmap_test bm id = false
  · refine ⟨by simp [h], fun _ _ => by rw [if_pos h], ?_, fun _ _ _ => by simp [h],
      rfl, fun b2 h2 => by simp [block_store_request, h2]⟩
    rw [if_pos h]
    intro hfalse
    exact absurd hfalse (by simp)
  · refine ⟨by simp [h], fun h1 h2 => absurd ⟨h1, h2⟩ h, fun _ => by rw [if_neg h],
      fun _ h1 h2 => absurd ⟨h1, h2⟩ h, rfl,
      fun b2 h2 => by simp [block_store_request, h2]⟩

theorem request_spec_witness :
    (block_store_request ⟨16, 1, 0, 2⟩
        (some (block_store_create ⟨16, 1, 0, 2⟩)) 0).2 = true :=
  (request_spec ⟨16, 1, 0, 2⟩ (block_store_create ⟨16, 1, 0, 2⟩)
    (bitmap_create 16) 0 rfl).1.mpr ⟨by decide, by decide⟩

/-- C5: Release clears the bit when the store is valid, the id is in range
and the block is marked used; in every other case it is a no-op (never an
error), so releasing a free block leaves GetFreeBlocks unchanged. -/
theorem release_spec (cfg : Config) (b : block_store) (bm : bitmap_t)
    (id : Nat) (hbm : b.bitmap = some bm) :
    (id < cfg.N → bitmap_test bm id = true →
      block_store_release cfg (some b) id =
        some { b with bitmap := some (bitmap_reset bm id) }) ∧
    (bitmap_test bm id = false →
      block_store_release cfg (some b) id = some b) ∧
    (cfg.N ≤ id → block_store_release cfg (some b) id = some b) ∧
    block_store_release cfg none id = none ∧
    (∀ b2 : block_store, b2.bitmap = none →
      block_store_release cfg (some b2) id = some b2) ∧
    (bitmap_test bm id = false →
      block_store_get_free_blocks cfg (block_store_release cfg (some b) id) =
        block_store_get_free_blocks cfg (some b)) := by
  rw [release_eq cfg b bm id hbm]
  refine ⟨fun h1 h2 => by rw [if_pos ⟨h1, h2⟩],
    fun ht => by rw [if_neg (by simp [ht])],
    fun hid => by rw [if_neg (by omega)], rfl,
    fun b2 h2 => by simp [block_store_release, h2],
    fun ht => by rw [if_neg (by simp [ht])]⟩

theorem release_spec_witness :
    block_store_release ⟨16, 1, 0, 2⟩
        (some (block_store_create ⟨16, 1, 0, 2⟩)) 5 =
      some (block_store_create ⟨16, 1, 0, 2⟩) :=
  (release_spec ⟨16, 1, 0, 2⟩ (block_store_create ⟨16, 1, 0, 2⟩)
    (bitmap_create 16) 5 rfl).2.1 (by decide)

lemma writeBytes_length (data src : List Nat) (off : Nat)
    (h : off + src.length ≤ data.length) :
    (writeBytes data off src).length = data.length := by
  simp only [writeBytes, List.length_append, List.length_take,
    List.length_drop]
  omega

lemma take_drop_writeBytes (data src : List Nat) (off : Nat)
    (hoff : off ≤ data.length) :
    List.take src.length (List.drop off (writeBytes data off src)) = src := by
  have hlen : (List.take off data).length = off := by
    simp only [List.length_take]
    omega
  rw [writeBytes, List.append_assoc, List.drop_left' hlen, List.take_left]

lemma writeBytes_getD_outside (data src : List Nat) (off j : Nat)
    (hoff : off ≤ data.length) (h : j < off ∨ off + src.length ≤ j) :
    (writeBytes data off src).getD j 0 = data.getD j 0 := by
  have hlen : (List.take off data).length = off := by
    simp only [List.length_take]
    omega
  rw [List.getD_eq_getElem?_getD, List.getD_eq_getElem?_getD, writeBytes,
    List.append_assoc]
  rcases h with h | h
  · have h1 : j < (List.take off data).length := by rw [hlen]; exact h
    rw [List.getElem?_append_left h1, List.getElem?_take_of_lt h]
  · have h1 : (List.take off data).length ≤ j := by rw [hlen]; omega
    rw [List.getElem?_append_right h1, hlen]
    have h2 : src.length ≤ j - off := by omega
    rw [List.getElem?_append_right h2, List.getElem?_drop]
    have h3 : off + src.length + (j - off - src.length) = j := by omega
    rw [h3]

/-- C6: for a valid store, an in-range id and full-block buffers, Write then
Read round-trips: the read buffer equals the written data, both calls return
exactly `BLOCK_SIZE_BYTES`, with no condition on the allocation bitmap. -/
theorem write_read_roundtrip (cfg : Config) (b : block_store) (id : Nat)
    (data buf : List Nat) (hid : id < cfg.N) (hlen : data.length = cfg.B)
    (hdata : b.data.length = cfg.N * cfg.B) :
    (block_store_write cfg (some b) id (some data)).2 = cfg.B ∧
    block_store_read cfg (block_store_write cfg (some b) id (some data)).1 id
        (some buf) = (some data, cfg.B) := by
  have hnot : ¬ id ≥ block_store_get_total_blocks cfg := by
    simp only [block_store_get_total_blocks, ge_iff_le, Nat.not_le]
    exact hid
  have htake : List.take cfg.B data = data :=
    List.take_of_length_le (le_of_eq hlen)
  refine ⟨by simp only [block_store_write, if_neg hnot], ?_⟩
  simp only [block_store_write, if_neg hnot, block_store_read, htake]
  have hoff : id * cfg.B ≤ b.data.length := by
    rw [hdata]
    exact Nat.mul_le_mul_right cfg.B (Nat.le_of_lt hid)
  have := take_drop_writeBytes b.data data (id * cfg.B) hoff
  rw [hlen] at this
  rw [this]

theorem write_read_roundtrip_witness :
    block_store_read ⟨16, 1, 0, 2⟩
        (block_store_write ⟨16, 1, 0, 2⟩
          (some (block_store_create ⟨16, 1, 0, 2⟩)) 3 (some [7])).1 3
        (some [0]) = (some [7], 1) :=
  (write_read_roundtrip ⟨16, 1, 0, 2⟩ (block_store_create ⟨16, 1, 0, 2⟩) 3
    [7] [0] (by decide) (by decide) (by decide)).2

/-- C9: every per-block operation rejects an out-of-range id (`id >= N`,
in particular `id = N`): Read and Write return 0 leaving the caller buffer
and the store untouched, Request fails without mutation, Release is a no-op;
and an in-range Write mutates only the `B` bytes of its own block, keeping
the buffer length at `N * B`. -/
theorem boundary_out_of_range (cfg : Config) (b : block_store) (id : Nat)
    (hid : cfg.N ≤ id) (buf src : List Nat) :
    block_store_read cfg (some b) id (some buf) = (some buf, 0) ∧
    block_store_write cfg (some b) id (some src) = (some b, 0) ∧
    block_store_request cfg (some b) id = (some b, false) ∧
    block_store_release cfg (some b) id = some b ∧
    (∀ id2 src2, id2 < cfg.N → src2.length = cfg.B →
      b.data.length = cfg.N * cfg.B →
      ∃ b2 : block_store,
        (block_store_write cfg (some b) id2 (some src2)).1 = some b2 ∧
        b2.data.length = cfg.N * cfg.B ∧
        ∀ j, j < id2 * cfg.B ∨ id2 * cfg.B + cfg.B ≤ j →
          b2.data.getD j 0 = b.data.getD j 0) := by
  have hge : id ≥ block_store_get_total_blocks cfg := hid
  refine ⟨by simp [block_store_read, if_pos hge],
    by simp [block_store_write, if_pos hge], ?_, ?_, ?_⟩
  · rcases hb : b.bitmap with _ | bm
    · simp [block_store_request, hb]
    · rw [request_eq cfg b bm id hb, if_neg (by omega)]
  · rcases hb : b.bitmap with _ | bm
    · simp [block_store_release, hb]
    · rw [release_eq cfg b bm id hb, if_neg (by omega)]
  · intro id2 src2 hid2 hsrc2 hdata
    have hnot : ¬ id2 ≥ block_store_get_total_blocks cfg := by
      simp only [block_store_get_total_blocks, ge_iff_le, Nat.not_le]
      exact hid2
    have htake : List.take cfg.B src2 = src2 :=
      List.take_of_length_le (le_of_eq hsrc2)
    simp only [block_store_write, if_neg hnot, htake]
    have hoff : id2 * cfg.B + cfg.B ≤ b.data.length := by
      rw [hdata]
      calc id2 * cfg.B + cfg.B = (id2 + 1) * cfg.B := by ring
        _ ≤ cfg.N * cfg.B := Nat.mul_le_mul_right cfg.B hid2
    refine ⟨_, rfl, ?_, ?_⟩
    · rw [writeBytes_length b.data src2 (id2 * cfg.B) (by omega), hdata]
    · intro j hj
      exact writeBytes_getD_outside b.data src2 (id2 * cfg.B) j (by omega)
        (by omega)

theorem boundary_out_of_range_witness :
    block_store_read ⟨16, 1, 0, 2⟩
        (some (block_store_create ⟨16, 1, 0, 2⟩)) 16 (some [9]) =
      (some [9], 0) :=
  (boundary_out_of_range ⟨16, 1, 0, 2⟩ (block_store_create ⟨16, 1, 0, 2⟩) 16
    (by decide) [9] [5]).1

lemma slice_getElem? (cfg : Config) (bytes : List Nat) (i j : Nat)
    (hi : i < cfg.N) (hj : j < cfg.B) :
    (List.take cfg.B (List.drop (i * cfg.B)
        (List.take (cfg.N * cfg.B) bytes)))[j]? = bytes[i * cfg.B + j]? := by
  have hib : i * cfg.B + j < cfg.N * cfg.B := by
    calc i * cfg.B + j < i * cfg.B + cfg.B := by omega
      _ = (i + 1) * cfg.B := by ring
      _ ≤ cfg.N * cfg.B := Nat.mul_le_mul_right cfg.B hi
  rw [List.getElem?_take_of_lt hj, List.getElem?_drop,
    List.getElem?_take_of_lt hib]

lemma blockNonzero_iff (cfg : Config) (bytes : List Nat) (i : Nat)
    (hi : i < cfg.N) (hlen : cfg.N * cfg.B ≤ bytes.length) :
    blockNonzero cfg (List.take (cfg.N * cfg.B) bytes) i = true ↔
      ∃ j, j < cfg.B ∧ bytes.getD (i * cfg.B + j) 0 ≠ 0 := by
  have hsl : (List.take cfg.B (List.drop (i * cfg.B)
      (List.take (cfg.N * cfg.B) bytes))).length = cfg.B := by
    simp only [List.length_take, List.length_drop]
    have : (i + 1) * cfg.B ≤ cfg.N * cfg.B := Nat.mul_le_mul_right cfg.B hi
    have : i * cfg.B + cfg.B ≤ cfg.N * cfg.B := by
      calc i * cfg.B + cfg.B = (i + 1) * cfg.B := by ring
        _ ≤ cfg.N * cfg.B := this
    omega
  rw [blockNonzero, List.any_eq_true]
  constructor
  · rintro ⟨x, hx, hpx⟩
    obtain ⟨j, hjlt, hjx⟩ := List.mem_iff_getElem.mp hx
    rw [hsl] at hjlt
    refine ⟨j, hjlt, ?_⟩
    have hje : (List.take cfg.B (List.drop (i * cfg.B)
        (List.take (cfg.N * cfg.B) bytes)))[j]? = some x := by
      rw [List.getElem?_eq_getElem (by omega), hjx]
    rw [List.getD_eq_getElem?_getD, ← slice_getElem? cfg bytes i j hi hjlt,
      hje]
    simpa using hpx
  · rintro ⟨j, hj, hne⟩
    have hib : i * cfg.B + j < bytes.length := by
      have : i * cfg.B + j < cfg.N * cfg.B := by
        calc i * cfg.B + j < i * cfg.B + cfg.B := by omega
          _ = (i + 1) * cfg.B := by ring
          _ ≤ cfg.N * cfg.B := Nat.mul_le_mul_right cfg.B hi
      omega
    have hbv : bytes[i * cfg.B + j]? = some (bytes.getD (i * cfg.B + j) 0) := by
      rw [List.getD_eq_getElem?_getD, List.getElem?_eq_getElem hib]
      rfl
    refine ⟨bytes.getD (i * cfg.B + j) 0,
      List.getElem?_mem (by rw [slice_getElem? cfg bytes i j hi hj, hbv]), ?_⟩
    simpa using hne

/-- C7: Deserialize fails (returns an invalid store) when fewer than
`N * B` bytes can be read, and on success marks block `i` allocated iff its
`B` bytes hold at least one non-zero byte, so an all-zero block comes back
free. -/
theorem deserialize_spec (cfg : Config) :
    block_store_deserialize cfg none = none ∧
    (∀ bytes : List Nat, bytes.length < cfg.N * cfg.B →
      block_store_deserialize cfg (some bytes) = none) ∧
    (∀ bytes : List Nat, cfg.N * cfg.B ≤ bytes.length →
      ∃ b bm, block_store_deserialize cfg (some bytes) = some b ∧
        b.bitmap = some bm ∧ b.data = List.take (cfg.N * cfg.B) bytes ∧
        ∀ i, i < cfg.N →
          (bitmap_test bm i = true ↔
            ∃ j, j < cfg.B ∧ bytes.getD (i * cfg.B + j) 0 ≠ 0)) := by
  refine ⟨rfl, ?_, ?_⟩
  · intro bytes h
    simp only [block_store_deserialize, Config.numBytes]
    rw [if_pos h]
  · intro bytes h
    refine ⟨⟨some ((List.range cfg.N).map
        (blockNonzero cfg (List.take (cfg.N * cfg.B) bytes))),
        List.take (cfg.N * cfg.B) bytes⟩,
      (List.range cfg.N).map
        (blockNonzero cfg (List.take (cfg.N * cfg.B) bytes)),
      ?_, rfl, rfl, ?_⟩
    · simp only [block_store_deserialize, Config.numBytes]
      rw [if_neg (by omega)]
    · intro i hi
      have hbm : ((List.range cfg.N).map
          (blockNonzero cfg (List.take (cfg.N * cfg.B) bytes)))[i]? =
            some (blockNonzero cfg (List.take (cfg.N * cfg.B) bytes) i) := by
        rw [List.getElem?_map, List.getElem?_range hi]
        rfl
      rw [bitmap_test, List.getD_eq_getElem?_getD, hbm]
      exact blockNonzero_iff cfg bytes i hi h

theorem deserialize_spec_witness :
    block_store_deserialize ⟨16, 1, 0, 2⟩ (some [1, 2, 3]) = none :=
  (deserialize_spec ⟨16, 1, 0, 2⟩).2.1 [1, 2, 3] (by decide)

/-- C8: Serialize emits exactly the `N * B` raw block bytes in index order
(no header, footer or bitmap) and returns `N * B`; it returns 0 on a NULL
store, a failed open or a partial write; and Deserialize of the serialized
file restores a store whose buffer matches byte for byte, so every Read
returns the original bytes. -/
theorem serialize_deserialize_roundtrip (cfg : Config) (b : block_store)
    (hdata : b.data.length = cfg.N * cfg.B)
    (hsz : cfg.N * cfg.B < sizeTMod) :
    block_store_serialize cfg (some b) IOOutcome.ok =
      (some b.data, cfg.N * cfg.B) ∧
    b.data.length = cfg.N * cfg.B ∧
    (∀ io, block_store_serialize cfg none io = (none, 0)) ∧
    (block_store_serialize cfg (some b) IOOutcome.openFail).2 = 0 ∧
    (∀ n, (block_store_serialize cfg (some b) (IOOutcome.shortWrite n)).2 = 0) ∧
    (∃ b2 : block_store,
      block_store_deserialize cfg
          (block_store_serialize cfg (some b) IOOutcome.ok).1 = some b2 ∧
      b2.data = b.data ∧
      ∀ id buf, block_store_read cfg (some b2) id (some buf) =
        block_store_read cfg (some b) id (some buf)) := by
  have hser : block_store_serialize cfg (some b) IOOutcome.ok =
      (some b.data, cfg.N * cfg.B) := by
    simp only [block_store_serialize, Config.numBytes]
    rw [Nat.mod_eq_of_lt hsz]
  refine ⟨hser, hdata, fun io => rfl, rfl, fun n => rfl, ?_⟩
  have htk : List.take (cfg.N * cfg.B) b.data = b.data :=
    List.take_of_length_le (le_of_eq hdata)
  have hdes : block_store_deserialize cfg
      (block_store_serialize cfg (some b) IOOutcome.ok).1 =
        some { bitmap := some ((List.range cfg.N).map
            (blockNonzero cfg b.data))
               data := b.data } := by
    rw [hser]
    simp only [block_store_deserialize, Config.numBytes]
    rw [if_neg (by rw [hdata]; omega), htk]
  refine ⟨_, hdes, rfl, ?_⟩
  intro id buf
  simp only [block_store_read]

theorem serialize_deserialize_roundtrip_witness :
    block_store_serialize ⟨16, 1, 0, 2⟩
        (some (block_store_create ⟨16, 1, 0, 2⟩)) IOOutcome.ok =
      (some (block_store_create ⟨16, 1, 0, 2⟩).data, 16) :=
  (serialize_deserialize_roundtrip ⟨16, 1, 0, 2⟩
    (block_store_create ⟨16, 1, 0, 2⟩) (by decide) (by decide)).1

lemma find?_ext {α : Type} (l : List α) (f g : α → Bool)
    (h : ∀ x ∈ l, f x = g x) : l.find? f = l.find? g := by
  induction l with
  | nil => rfl
  | cons a t ih =>
    have ha := h a (List.mem_cons_self a t)
    by_cases hfa : f a = true
    · rw [List.find?_cons_of_pos _ hfa, List.find?_cons_of_pos _ (ha ▸ hfa)]
    · rw [List.find?_cons_of_neg _ hfa,
        List.find?_cons_of_neg _ (fun hg => hfa (ha ▸ hg)),
        ih (fun x hx => h x (List.mem_cons_of_mem a hx))]

lemma find?_filter_take (l : List Nat) (p : Nat → Bool) (k : Nat)
    (hnd : l.Nodup) :
    l.find? (fun i => p i && !decide (i ∈ (l.filter p).take k)) =
      (l.filter p)[k]? := by
  induction l generalizing k with
  | nil => simp
  | cons a t ih =>
    obtain ⟨hat, hndt⟩ := List.nodup_cons.mp hnd
    by_cases hp : p a = true
    · rw [List.filter_cons_of_pos hp]
      cases k with
      | zero =>
        rw [List.find?_cons_of_pos _ (by simp [hp])]
        simp
      | succ j =>
        rw [List.take_succ_cons,
          List.find?_cons_of_neg _ (by simp), List.getElem?_cons_succ]
        rw [find?_ext t _
          (fun i => p i && !decide (i ∈ (t.filter p).take j)) (fun x hx => by
            have hx_ne : x ≠ a := fun he => hat (he ▸ hx)
            simp [List.mem_cons, hx_ne])]
        exact ih j hndt
    · rw [List.filter_cons_of_neg (by simpa using hp),
        List.find?_cons_of_neg _ (by simp [hp])]
      exact ih k hndt

lemma allocate_step (cfg : Config) (b : block_store) (bm : bitmap_t) (k : Nat)
    (hbm : b.bitmap = some bm)
    (hbits : ∀ i, bitmap_test bm i = decide (i ∈ (freeIds cfg).take k)) :
    block_store_allocate cfg (some b) =
      match (freeIds cfg)[k]? with
      | some id => (some { b with bitmap := some (bitmap_set bm id) }, id)
      | none => (some b, SIZE_MAX) := by
  have hf : (List.range cfg.N).find?
      (fun i => !inReservedRange cfg i && !bitmap_test bm i) =
        (freeIds cfg)[k]? := by
    rw [find?_ext _ _
      (fun i => !inReservedRange cfg i &&
        !decide (i ∈ (freeIds cfg).take k)) (fun x _ => by rw [hbits x])]
    exact find?_filter_take (List.range cfg.N)
      (fun i => !inReservedRange cfg i) k (List.nodup_range cfg.N)
  simp only [block_store_allocate, hbm]
  rw [hf]

lemma bitmap_set_invariant (cfg : Config) (bm : bitmap_t) (k : Nat) (id : Nat)
    (hlen : bm.length = cfg.N)
    (hbits : ∀ i, bitmap_test bm i = decide (i ∈ (freeIds cfg).take k))
    (hid : (freeIds cfg)[k]? = some id) :
    ∀ i, bitmap_test (bitmap_set bm id) i =
      decide (i ∈ (freeIds cfg).take (k + 1)) := by
  intro i
  have hmem : id ∈ freeIds cfg := List.getElem?_mem hid
  have hidN : id < cfg.N := by
    have := (List.mem_filter.mp hmem).1
    exact List.mem_range.mp this
  have htk : (freeIds cfg).take (k + 1) = (freeIds cfg).take k ++ [id] := by
    rw [List.take_succ, hid]
    rfl
  by_cases hie : i = id
  · subst hie
    have : (List.set bm i true)[i]? = some true :=
      List.getElem?_set_self (by rw [hlen]; exact hidN)
    rw [bitmap_test, bitmap_set, List.getD_eq_getElem?_getD, this, htk]
    simp
  · have : (List.set bm id true)[i]? = bm[i]? :=
      List.getElem?_set_ne (fun he => hie he.symm)
    rw [bitmap_test, bitmap_set, List.getD_eq_getElem?_getD, this,
      ← List.getD_eq_getElem?_getD, ← bitmap_test, hbits i, htk]
    simp [hie]

lemma allocRun_spec (cfg : Config) :
    ∀ (m k : Nat) (b : block_store) (bm : bitmap_t),
    b.bitmap = some bm → bm.length = cfg.N →
    (∀ i, bitmap_test bm i = decide (i ∈ (freeIds cfg).take k)) →
    k + m ≤ (freeIds cfg).length →
    (allocRun cfg (some b) m).2 = ((freeIds cfg).drop k).take m ∧
    ∃ b2 bm2, (allocRun cfg (some b) m).1 = some b2 ∧
      b2.bitmap = some bm2 ∧ bm2.length = cfg.N ∧
      (∀ i, bitmap_test bm2 i = decide (i ∈ (freeIds cfg).take (k + m))) := by
  intro m
  induction m with
  | zero =>
    intro k b bm hbm hlen hbits _
    exact ⟨rfl, b, bm, rfl, hbm, hlen, hbits⟩
  | succ m ih =>
    intro k b bm hbm hlen hbits hkm
    have hk : k < (freeIds cfg).length := by omega
    have hid : (freeIds cfg)[k]? = some ((freeIds cfg)[k]) :=
      List.getElem?_eq_getElem hk
    have halloc := allocate_step cfg b bm k hbm hbits
    rw [hid] at halloc
    have hbits2 := bitmap_set_invariant cfg bm k ((freeIds cfg)[k]) hlen
      hbits hid
    have hlen2 : (bitmap_set bm ((freeIds cfg)[k])).length = cfg.N := by
      rw [bitmap_set, List.length_set]
      exact hlen
    obtain ⟨hres, b2, bm2, hrun, hbm2, hlen2', hbits'⟩ :=
      ih (k + 1) { b with bitmap := some (bitmap_set bm ((freeIds cfg)[k])) }
        (bitmap_set bm ((freeIds cfg)[k])) rfl hlen2 hbits2 (by omega)
    constructor
    · show (allocRun cfg (some b) (m + 1)).2 = _
      rw [allocRun, halloc, hres, List.drop_eq_getElem_cons hk,
        List.take_succ_cons]
    · refine ⟨b2, bm2, ?_, hbm2, hlen2', ?_⟩
      · show (allocRun cfg (some b) (m + 1)).1 = some b2
        rw [allocRun, halloc]
        exact hrun
      · have : k + 1 + m = k + (m + 1) := by omega
        rw [← this]
        exact hbits'

lemma freeIds_bitmap_create (cfg : Config) :
    ∀ i, bitmap_test (bitmap_create cfg.N) i =
      decide (i ∈ (freeIds cfg).take 0) := by
  intro i
  rw [List.take_zero, bitmap_test, bitmap_create, List.getD_eq_getElem?_getD,
    List.getElem?_replicate]
  by_cases h : i < cfg.N <;> simp [h]

/-- C1: from a fresh store, repeated Allocate returns every non-reserved
block id of `[0, N)` exactly once, in ascending order, never a
reserved-range id, and the call after the last free block is taken returns
the `SIZE_MAX` no-space sentinel. -/
theorem allocate_exhaustive_first_fit (cfg : Config) :
    (allocRun cfg (some (block_store_create cfg)) (freeIds cfg).length).2 =
      freeIds cfg ∧
    List.Pairwise (· < ·) (freeIds cfg) ∧
    (∀ i, i ∈ freeIds cfg ↔ i < cfg.N ∧ inReservedRange cfg i = false) ∧
    (block_store_allocate cfg
        (allocRun cfg (some (block_store_create cfg))
          (freeIds cfg).length).1).2 = SIZE_MAX := by
  obtain ⟨hres, b2, bm2, hrun, hbm2, _, hbits⟩ :=
    allocRun_spec cfg (freeIds cfg).length 0 (block_store_create cfg)
      (bitmap_create cfg.N) rfl (List.length_replicate cfg.N false)
      (freeIds_bitmap_create cfg) (by omega)
  refine ⟨?_, List.Pairwise.filter _ (List.pairwise_lt_range cfg.N), ?_, ?_⟩
  · rw [hres, List.drop_zero, List.take_of_length_le (le_refl _)]
  · intro i
    rw [freeIds, List.mem_filter, List.mem_range]
    simp
  · rw [hrun]
    have hbits' : ∀ i, bitmap_test bm2 i =
        decide (i ∈ (freeIds cfg).take (freeIds cfg).length) := by
      simpa using hbits
    rw [allocate_step cfg b2 bm2 (freeIds cfg).length hbm2 hbits',
      List.getElem?_eq_none (le_refl _)]

theorem allocate_exhaustive_first_fit_witness :
    (allocRun ⟨16, 1, 0, 2⟩ (some (block_store_create ⟨16, 1, 0, 2⟩))
      (freeIds ⟨16, 1, 0, 2⟩).length).2 = freeIds ⟨16, 1, 0, 2⟩ :=
  (allocate_exhaustive_first_fit ⟨16, 1, 0, 2⟩).1

theorem used_plus_free_eq_total_mod_sizeT_witness :
    (block_store_get_used_blocks ⟨16, 1, 0, 2⟩
        (runOps ⟨16, 1, 0, 2⟩ (some (block_store_create ⟨16, 1, 0, 2⟩))
          [Op.alloc, Op.req 0, Op.rel 3]) +
      block_store_get_free_blocks ⟨16, 1, 0, 2⟩
        (runOps ⟨16, 1, 0, 2⟩ (some (block_store_create ⟨16, 1, 0, 2⟩))
          [Op.alloc, Op.req 0, Op.rel 3])) % sizeTMod =
      block_store_get_total_blocks ⟨16, 1, 0, 2⟩ % sizeTMod :=
  used_plus_free_eq_total_mod_sizeT ⟨16, 1, 0, 2⟩ [Op.alloc, Op.req 0, Op.rel 3]

end BStore
